import Mathlib

/-!
Verification of the majsoul-match-stats repository.

Shallow embedding of the Python sources `paipu_dl.py` and `stats_batch.py`:
byte strings are lists of naturals (each < 256 in practice; the bitwise
operations used mirror the Python expressions exactly), Python `dict`s are
insertion-ordered association lists, exceptions are modelled by `Option`
(`none` = the call raises), and the unbounded `while` loops are driven by an
explicit fuel argument that is chosen large enough that the artificial
out-of-fuel case is unreachable (each loop iteration consumes at least one
byte of the buffer).

The file has two parts: first all definitions (the embedding), then the
theorems about them.
-/

namespace Majsoul

/-- A byte of a Python `bytes` buffer (value < 256 for real inputs). -/
abbrev Byte := Nat

/-! ## Varint codec: `MajsoulCodec._encode_varint` / `_decode_varint` -/

/-- Loop of `MajsoulCodec._encode_varint` (paipu_dl.py). The fuel only bounds
the iteration count; `v >>> 7 < v` whenever `v > 127`, so fuel `v` suffices
and the fuel-0 arm coincides with the `value <= 127` exit. -/
def encode_varint_fuel : Nat → Nat → List Byte
  | 0, v => [v]
  | fuel+1, v =>
    if v > 127 then ((v &&& 127) ||| 128) :: encode_varint_fuel fuel (v >>> 7)
    else [v]

/-- `MajsoulCodec._encode_varint`: base-128 little-endian varint encoding. -/
def encode_varint (v : Nat) : List Byte := encode_varint_fuel v v

/-- Loop of `MajsoulCodec._decode_varint` (paipu_dl.py). `data[pos]` raising
`IndexError` is modelled by `none`; the fuel `data.length + 1 - pos` is exact:
each iteration advances `pos` by one, so fuel 0 is reached only with
`pos > data.length`, where Python would raise as well. -/
def decode_varint_fuel : Nat → List Byte → Nat → Nat → Nat → Option (Nat × Nat)
  | 0, _, _, _, _ => none
  | fuel+1, data, pos, result, shift =>
    match data[pos]? with
    | none => none
    | some b =>
      let result := result ||| ((b &&& 127) <<< shift)
      if b &&& 128 == 0 then some (result, pos + 1)
      else decode_varint_fuel fuel data (pos + 1) result (shift + 7)

/-- `MajsoulCodec._decode_varint`: returns `(value, new_pos)`, or `none` when
the buffer ends inside the varint (Python raises `IndexError`). -/
def decode_varint (data : List Byte) (pos : Nat) : Option (Nat × Nat) :=
  decode_varint_fuel (data.length + 1 - pos) data pos 0 0

/-! ## XOR record obfuscation: `decode_record_data` -/

/-- The fixed 9-byte table `DECODE_KEYS` (paipu_dl.py). -/
def DECODE_KEYS : List Nat := [0x84, 0x5e, 0x4e, 0x42, 0x39, 0xa2, 0x1f, 0x60, 0x1c]

/-- Keystream byte `i` for a buffer of total length `len`:
`((23 XOR len) + 5*i + DECODE_KEYS[i mod 9]) mod 256`, exactly the Python
expression `(23 ^ len(data)) + 5 * i + DECODE_KEYS[i % len(DECODE_KEYS)] & 255`
(`&` binds weaker than `+` in Python, so the `& 255` applies to the sum). -/
def record_key (len i : Nat) : Nat :=
  ((23 ^^^ len) + 5 * i + DECODE_KEYS.getD (i % DECODE_KEYS.length) 0) &&& 255

/-- Loop of `decode_record_data`: XOR byte `i` with `record_key len i`. -/
def decode_record_aux (len : Nat) : Nat → List Byte → List Byte
  | _, [] => []
  | i, b :: rest => (b ^^^ record_key len i) :: decode_record_aux len (i + 1) rest

/-- `decode_record_data` (paipu_dl.py): XOR stream cipher over the buffer,
keyed by the buffer's own total length. -/
def decode_record_data (data : List Byte) : List Byte :=
  decode_record_aux data.length 0 data

/-! ## Schema registry (`MajsoulCodec._parse_proto_def` output shape)

The registry built by `_parse_proto_def` maps fully-qualified dotted names to
message-type definitions (`fields` members) and service definitions
(`methods` members). We embed the registries directly as association lists;
the JSON tree walk that builds them is pure data plumbing. -/

/-- One field of a message type: `fields[name] = {id, type, rule}`;
`repeated` records whether `rule == "repeated"`. -/
structure FieldDef where
  id : Nat
  type : String
  repeated : Bool
deriving DecidableEq

/-- A message type: its ordered field map. -/
structure TypeDef where
  fields : List (String × FieldDef)

/-- One service method: `{requestType, responseType}`. -/
structure MethodDef where
  requestType : String
  responseType : String

/-- A service: its method map. -/
structure ServiceDef where
  methods : List (String × MethodDef)

abbrev TypeRegistry := List (String × TypeDef)

abbrev ServiceRegistry := List (String × ServiceDef)

/-- Type lookup as done in `_encode_message` / `_decode_message`: try the
literal name, then the name with the default `lq.` namespace prefix. -/
def lookup_type (types : TypeRegistry) (name : String) : Option TypeDef :=
  match types.lookup name with
  | some td => some td
  | none => types.lookup ("lq." ++ name)

/-- `field_by_id = {f["id"]: (name, f) for name, f in fields.items()}`:
a later duplicate id overwrites an earlier one, hence the reversed search. -/
def field_by_id (fields : List (String × FieldDef)) (i : Nat) :
    Option (String × FieldDef) :=
  fields.reverse.find? (fun p => p.2.id == i)

/-- Python `dict` assignment `d[k] = v` on an insertion-ordered assoc list:
replace in place if the key exists, else append. -/
def assoc_insert {κ α : Type} [BEq κ] : List (κ × α) → κ → α → List (κ × α)
  | [], k, v => [(k, v)]
  | (k0, v0) :: rest, k, v =>
    if k0 == k then (k, v) :: rest else (k0, v0) :: assoc_insert rest k v

/-! ## Decoded/encoded structured values

`_decode_message` returns a Python dict whose values are ints, bools,
UTF-8-decoded strings, base64 strings for opaque bytes, nested dicts, or the
`_raw` marker. We keep raw bytes where Python keeps their base64 text (base64
is a bijection, so no information differs), and keep the UTF-8 bytes of
decoded strings. -/

inductive PValue where
  | vnull : PValue
  | vbool : Bool → PValue
  | vint : Nat → PValue
  | vstr : List Byte → PValue
  | vbytes : List Byte → PValue
  | vmsg : List (String × PValue) → PValue
  | varr : List PValue → PValue

abbrev PDict := List (String × PValue)

/-! ## Strict UTF-8 (`bytes.decode("utf-8")`)

Used by `_decode_message` for `string`-typed fields; an invalid sequence
raises `UnicodeDecodeError` (modelled by `none`). Rejects overlong forms,
surrogates and code points above U+10FFFF, like CPython's strict decoder. -/

/-- A UTF-8 continuation byte. -/
abbrev utf8_cont (b : Nat) : Prop := 128 ≤ b ∧ b < 192

/-- Strict UTF-8 decoding to a list of code points. -/
def utf8_decode : List Byte → Option (List Nat)
  | [] => some []
  | b :: rest =>
    if b < 128 then (utf8_decode rest).map (fun cs => b :: cs)
    else if b < 194 then none
    else if b < 224 then
      match rest with
      | b1 :: rest1 =>
        if utf8_cont b1 then
          (utf8_decode rest1).map (fun cs => (((b - 192) <<< 6) + (b1 - 128)) :: cs)
        else none
      | [] => none
    else if b < 240 then
      match rest with
      | b1 :: b2 :: rest2 =>
        if utf8_cont b1 ∧ utf8_cont b2 ∧ (b = 224 → 160 ≤ b1) ∧ (b = 237 → b1 < 160) then
          (utf8_decode rest2).map
            (fun cs => (((b - 224) <<< 12) + ((b1 - 128) <<< 6) + (b2 - 128)) :: cs)
        else none
      | _ => none
    else if b < 245 then
      match rest with
      | b1 :: b2 :: b3 :: rest3 =>
        if utf8_cont b1 ∧ utf8_cont b2 ∧ utf8_cont b3
            ∧ (b = 240 → 144 ≤ b1) ∧ (b = 244 → b1 < 144) then
          (utf8_decode rest3).map
            (fun cs =>
              (((b - 240) <<< 18) + ((b1 - 128) <<< 12) + ((b2 - 128) <<< 6) + (b3 - 128)) :: cs)
        else none
      | _ => none
    else none

/-- UTF-8 encoding of one code point (`str.encode("utf-8")`). -/
def utf8_encode_char (n : Nat) : List Byte :=
  if n < 128 then [n]
  else if n < 2048 then [192 + n / 64, 128 + n % 64]
  else if n < 65536 then [224 + n / 4096, 128 + n / 64 % 64, 128 + n % 64]
  else [240 + n / 262144, 128 + n / 4096 % 64, 128 + n / 64 % 64, 128 + n % 64]

/-- The UTF-8 bytes of a string (`s.encode()`). -/
def str_bytes (s : String) : List Byte :=
  (s.data.map (fun c => utf8_encode_char c.toNat)).flatten

/-! ## `MajsoulCodec._decode_message`

The `while pos < len(data)` loop. The loop fuel `data.length + 1` is enough
because every iteration consumes at least the one-byte-or-more tag varint;
the nesting fuel of `dec_msg` is enough because a nested sub-buffer is at
least two bytes (tag + length prefix) shorter than its parent. -/

/-- One run of the record-scanning loop of `_decode_message`, over field
definitions `fields` of the type being decoded; `recur` decodes a
nested-message field (it is `dec_msg` one fuel level down). -/
def dec_loop (recur : String → List Byte → Option PDict) (types : TypeRegistry)
    (fields : List (String × FieldDef)) (data : List Byte) :
    Nat → Nat → PDict → Option PDict
  | 0, _, _ => none
  | fuel+1, pos, acc =>
    if pos < data.length then
      match decode_varint data pos with
      | none => none
      | some (tag, pos1) =>
        match field_by_id fields (tag >>> 3) with
        | none =>
          -- unknown field number: skip one varint / `length` bytes
          if tag &&& 7 == 0 then
            match decode_varint data pos1 with
            | none => none
            | some (_, pos2) => dec_loop recur types fields data fuel pos2 acc
          else if tag &&& 7 == 2 then
            match decode_varint data pos1 with
            | none => none
            | some (len, pos2) => dec_loop recur types fields data fuel (pos2 + len) acc
          else dec_loop recur types fields data fuel pos1 acc
        | some (fname, fdef) =>
          if tag &&& 7 == 0 then
            match decode_varint data pos1 with
            | none => none
            | some (v, pos2) =>
              dec_loop recur types fields data fuel pos2
                (assoc_insert acc fname
                  (if fdef.type == "bool" then PValue.vbool (v != 0) else PValue.vint v))
          else if tag &&& 7 == 2 then
            match decode_varint data pos1 with
            | none => none
            | some (len, pos2) =>
              let value := (data.drop pos2).take len
              if fdef.type == "string" then
                match utf8_decode value with
                | none => none
                | some _ =>
                  dec_loop recur types fields data fuel (pos2 + len)
                    (assoc_insert acc fname (PValue.vstr value))
              else if fdef.type == "bytes" then
                dec_loop recur types fields data fuel (pos2 + len)
                  (assoc_insert acc fname (PValue.vbytes value))
              else if (lookup_type types fdef.type).isSome then
                match recur fdef.type value with
                | none => none
                | some sub =>
                  dec_loop recur types fields data fuel (pos2 + len)
                    (assoc_insert acc fname (PValue.vmsg sub))
              else
                dec_loop recur types fields data fuel (pos2 + len)
                  (assoc_insert acc fname (PValue.vbytes value))
          else dec_loop recur types fields data fuel pos1 acc
    else some acc

/-- `_decode_message` with explicit nesting fuel: an unregistered type name
degrades to the `{"_raw": <bytes>}` marker instead of raising. -/
def dec_msg : Nat → TypeRegistry → String → List Byte → Option PDict
  | 0, _, _, _ => none
  | fuel+1, types, name, data =>
    match lookup_type types name with
    | none => some [("_raw", PValue.vbytes data)]
    | some td =>
      dec_loop (fun n d => dec_msg fuel types n d) types td.fields data
        (data.length + 1) 0 []

/-- `MajsoulCodec._decode_message` (paipu_dl.py). -/
def decode_message (types : TypeRegistry) (name : String) (data : List Byte) :
    Option PDict :=
  dec_msg (data.length + 1) types name data

/-! ## `MajsoulCodec._encode_message` / `_encode_single_field` -/

/-- Python truthiness of a structured value (`1 if value else 0`). -/
def pvalue_truthy : PValue → Bool
  | .vnull => false
  | .vbool b => b
  | .vint n => n != 0
  | .vstr s => !s.isEmpty
  | .vbytes s => !s.isEmpty
  | .vmsg d => !d.isEmpty
  | .varr l => !l.isEmpty

/-- `MajsoulCodec._encode_field`: tag `(field_num << 3) | wire_type` followed
by the value bytes. -/
def encode_field (field_num wire_type : Nat) (value : List Byte) : List Byte :=
  encode_varint ((field_num <<< 3) ||| wire_type) ++ value

/-- `MajsoulCodec._encode_string`: a length-delimited field
(string/bytes/message). -/
def encode_string (field_num : Nat) (value : List Byte) : List Byte :=
  encode_field field_num 2 (encode_varint value.length ++ value)

/-- `MajsoulCodec._encode_single_field`. `recur` encodes a nested message
value (it is `enc_msg` one fuel level down). A type error in the Python code
(e.g. a list where bytes are expected) is `none`; the final catch-all
`return b""` is `some []`. Negative integers (whose encoding raises in the
Python `_encode_varint`) are outside the `Nat`-valued model. -/
def enc_single (recur : String → PDict → Option (List Byte))
    (types : TypeRegistry) (field_id : Nat) (field_type : String) :
    PValue → Option (List Byte)
  | .vnull => some []
  | v =>
    if field_type == "string" then
      match v with
      | .vstr s => some (encode_string field_id s)
      | .vbytes s => some (encode_string field_id s)
      | _ => none
    else if field_type == "bytes" then
      match v with
      | .vbytes s => some (encode_string field_id s)
      | _ => none
    else if field_type == "int32" || field_type == "int64"
        || field_type == "uint32" || field_type == "uint64" then
      match v with
      | .vint n => some (encode_field field_id 0 (encode_varint n))
      | .vbool b => some (encode_field field_id 0 (encode_varint (if b then 1 else 0)))
      | _ => none
    else if field_type == "bool" then
      some (encode_field field_id 0 (encode_varint (if pvalue_truthy v then 1 else 0)))
    else if (lookup_type types field_type).isSome then
      match v with
      | .vmsg d => (recur field_type d).map (encode_string field_id)
      | _ => some []
    else some []

/-- `_encode_message` with explicit nesting fuel: iterate the schema's fields
in order, emit each field present in `data` (one tag+value per element of a
repeated list value); an unknown top-level type name raises (`none`). -/
def enc_msg : Nat → TypeRegistry → String → PDict → Option (List Byte)
  | 0, _, _, _ => none
  | fuel+1, types, name, data =>
    match lookup_type types name with
    | none => none
    | some td =>
      td.fields.foldr
        (fun fp acc =>
          match data.lookup fp.1 with
          | none => acc
          | some v =>
            let one :=
              if fp.2.repeated then
                match v with
                | .varr items =>
                  items.foldr
                    (fun it a =>
                      match enc_single (fun n d => enc_msg fuel types n d) types
                          fp.2.id fp.2.type it, a with
                      | some e, some r => some (e ++ r)
                      | _, _ => none)
                    (some [])
                | _ => enc_single (fun n d => enc_msg fuel types n d) types fp.2.id fp.2.type v
              else enc_single (fun n d => enc_msg fuel types n d) types fp.2.id fp.2.type v
            match one, acc with
            | some e, some r => some (e ++ r)
            | _, _ => none)
        (some [])

mutual

/-- Size of a structured value; any fuel above it bounds the nesting depth. -/
def pval_size : PValue → Nat
  | .vnull => 1
  | .vbool _ => 1
  | .vint _ => 1
  | .vstr _ => 1
  | .vbytes _ => 1
  | .vmsg d => pdict_size d + 1
  | .varr l => parr_size l + 1

/-- Size of a structured dict. -/
def pdict_size : PDict → Nat
  | [] => 1
  | (_, v) :: rest => pval_size v + pdict_size rest

/-- Size of a list of structured values. -/
def parr_size : List PValue → Nat
  | [] => 1
  | v :: rest => pval_size v + parr_size rest

end

/-- `MajsoulCodec._encode_message` (paipu_dl.py). The fuel `pdict_size data`
exceeds the nesting depth of any structured value, so the out-of-fuel arm of
`enc_msg` is unreachable. -/
def encode_message (types : TypeRegistry) (name : String) (data : PDict) :
    Option (List Byte) :=
  enc_msg (pdict_size data) types name data

/-! ## `MajsoulCodec.encode_request` (request framing, sequence ids) -/

/-- Frame kinds (class `MsgType`): 1 = Notify, 2 = Request, 3 = Response. -/
inductive MsgType where
  | NOTIFY : MsgType
  | REQUEST : MsgType
  | RESPONSE : MsgType

/-- `MsgType` byte values. -/
def MsgType.code : MsgType → Nat
  | .NOTIFY => 1
  | .REQUEST => 2
  | .RESPONSE => 3

/-- Python `str.split(".")` on a character list, keeping empty segments. -/
def split_on_dot : List Char → List (List Char)
  | [] => [[]]
  | c :: rest =>
    let r := split_on_dot rest
    if c = '.' then [] :: r
    else
      match r with
      | seg :: segs => (c :: seg) :: segs
      | [] => [[c]]

/-- Python `str.lstrip(".")`: drop all leading dots. -/
def drop_leading_dots (s : List Char) : List Char :=
  s.dropWhile (fun c => c = '.')

/-- Python `".".join(parts)`. -/
def join_dots : List (List Char) → List Char
  | [] => []
  | [s] => s
  | s :: rest => s ++ '.' :: join_dots rest

/-- `name.split(".")[-1]`: the final dot-segment of a name. -/
def last_segment (s : String) : String :=
  String.mk ((split_on_dot s.data).getLastD [])

/-- The method-name parsing of `encode_request`:
`parts = method_name.lstrip(".").split(".")`; with at least three parts the
service name is `".".join(parts[:-1])` and the method is `parts[-1]`;
otherwise `ValueError` (`none`). -/
def parse_method_name (method_name : String) : Option (String × String) :=
  let parts := split_on_dot (drop_leading_dots method_name.data)
  if 3 ≤ parts.length then
    some (String.mk (join_dots parts.dropLast), String.mk (parts.getLastD []))
  else none

/-- `struct.pack("<H", n)`: two little-endian bytes for `0 ≤ n ≤ 65535`;
outside that range `struct.error` is raised (`none`). The counter is a Python
int, so it does NOT wrap silently. -/
def pack_uint16_le (n : Nat) : Option (List Byte) :=
  if n ≤ 65535 then some [n % 256, n / 256] else none

/-- The session-scoped mutable codec state: `msg_index` (0 at construction)
and the pending-request map `msg_id -> (method_name, response_type)`. -/
structure CodecState where
  msgIndex : Nat
  pending : List (Nat × (String × String))

/-- `MajsoulCodec.encode_request` (paipu_dl.py): allocate `msg_index + 1`,
resolve the method against the service registry, encode the payload, record
the pending entry, and build the frame
`bytes([2]) + pack("<H", msg_id) + wrapper(field 1 = method name, field 2 =
payload)`. `none` models a raised exception; on the success path the state
mutation and frame match the Python code exactly. (In Python a raise after
`msg_index += 1` leaves the counter incremented; no claim depends on the
post-raise state, so the failing paths collapse to `none`.) -/
def encode_request (types : TypeRegistry) (services : ServiceRegistry)
    (st : CodecState) (method_name : String) (payload : PDict) :
    Option (CodecState × List Byte) :=
  let msg_id := st.msgIndex + 1
  match parse_method_name method_name with
  | none => none
  | some (service_name, method) =>
    match services.lookup service_name with
    | none => none
    | some svc =>
      match svc.methods.lookup method with
      | none => none
      | some md =>
        match encode_message types md.requestType payload with
        | none => none
        | some body =>
          match pack_uint16_le msg_id with
          | none => none
          | some id_bytes =>
            some (⟨msg_id, assoc_insert st.pending msg_id (method_name, md.responseType)⟩,
              MsgType.REQUEST.code :: id_bytes
                ++ encode_string 1 (str_bytes method_name) ++ encode_string 2 body)

/-! ## `stats_batch.match_players_by_score`

The CSV side is abstracted to the already-parsed integer score of each CSV
player (`int(float(p.get('score', '0')))`, falling back to 0 when the string
does not parse — the float-string parsing itself is outside the embedding);
a player is identified by its index in the CSV list, exactly the indices the
Python code tracks in its `used_players` set, and the returned mapping pairs
each matched seat with that index. -/

/-- The inner `for i, (player, csv_score) in enumerate(csv_scores)` loop:
find the first unused player index with the strictly smallest absolute score
difference, threading the running best `(index, best_diff)` (`none` is the
initial `best_match = None` / `best_diff = inf`). -/
def best_match_aux (used : List Nat) (target : Int) :
    List (Nat × Int) → Option (Nat × Nat) → Option (Nat × Nat)
  | [], best => best
  | (i, score) :: rest, best =>
    if i ∈ used then best_match_aux used target rest best
    else
      let diff := (target - score).natAbs
      match best with
      | none => best_match_aux used target rest (some (i, diff))
      | some (j, bd) =>
        if diff < bd then best_match_aux used target rest (some (i, diff))
        else best_match_aux used target rest (some (j, bd))

/-- The outer `for seat, json_score in enumerate(final_scores)` loop: a seat
is bound to the best unused player only when the best difference is strictly
below 100, and that player's index is then added to the used set. -/
def match_loop (csv : List (Nat × Int)) :
    List (Nat × Int) → List Nat → List (Nat × Nat) → List (Nat × Nat)
  | [], _, acc => acc
  | (seat, js) :: rest, used, acc =>
    match best_match_aux used js csv none with
    | none => match_loop csv rest used acc
    | some (i, bd) =>
      if bd < 100 then match_loop csv rest (used ++ [i]) (acc ++ [(seat, i)])
      else match_loop csv rest used acc

/-- `match_players_by_score` (stats_batch.py): empty mapping unless
`final_scores` is present with exactly 4 entries. -/
def match_players_by_score (csv_scores : List Int) :
    Option (List Int) → List (Nat × Nat)
  | none => []
  | some fs =>
    if fs.length ≠ 4 then [] else match_loop csv_scores.enum fs.enum [] []

/-! ## `paipu_dl.parse_game_record` (record-decode error policy)

Modelled from the spec: the generated protobuf classes (`proto/liqi_pb2`,
outside the embedded sources) and `google.protobuf`'s `ParseFromString` are
abstracted as `Option`-valued parse functions, `none` standing for a raised
`DecodeError` — per the spec these are the "decoders registered for a type
name" whose failure modes the error-handling policy is about. The base64
transport layer is a bijection and is dropped: `record["data"]` carries the
decoded bytes directly. The function's own control flow (the `try`/`except`
placement, the per-field fallbacks, the unknown-type branch) is embedded from
`parse_game_record` in paipu_dl.py. -/

/-- A header sub-field after the decode attempt: `parse_single_pb` returns
`None` on failure and the caller keeps the original (raw) value. -/
inductive HeadField (α : Type) where
  | raw : List Byte → HeadField α
  | parsed : α → HeadField α

/-- The pieces of `record["head"]` that `parse_game_record` touches:
`accounts` and `result.players` (each `none` when absent or empty, else the
embedded sub-message bytes), and `uuid`. -/
structure GRHead where
  accounts : Option (List Byte)
  result_players : Option (List Byte)
  uuid : Option String

/-- The fetched record: optional head, optional primary payload bytes
(`none` models both a missing and an empty `data` field). -/
structure GameRecordIn where
  head : Option GRHead
  data : Option (List Byte)

/-- The head section of the output. -/
structure ParsedHead (A P : Type) where
  accounts : Option (HeadField A)
  players : Option (HeadField P)
  uuid : Option String

/-- The output of `parse_game_record`: `noData` is the
`result["error"] = "No game data"` marker, `parseError` the
`result["parse_error"]` marker, `rawData` the retained raw payload, and each
action is either a structured `(type, data)` or an opaque `(type, raw)`. -/
structure ParsedRecord (A P M : Type) where
  head : Option (ParsedHead A P)
  uuid : Option String
  noData : Bool
  version : Option Nat
  actions : List (String × Sum M (List Byte))
  parseError : Bool
  rawData : Option (List Byte)

/-- The head-processing block: each embedded sub-message is decoded
individually; a failed decode keeps the original value (degrade, not
abort). -/
def parse_head {A P : Type} (acc_pb : List Byte → Option A)
    (pl_pb : List Byte → Option P) (h : GRHead) : ParsedHead A P :=
  ⟨h.accounts.map (fun b =>
      match acc_pb b with
      | some v => HeadField.parsed v
      | none => HeadField.raw b),
   h.result_players.map (fun b =>
      match pl_pb b with
      | some v => HeadField.parsed v
      | none => HeadField.raw b),
   h.uuid⟩

/-- The `for action in detail.actions` loop, inside the one `try` of
`parse_game_record`: empty payloads are skipped; an unregistered action type
(`getattr(pb, type_name)` is `None`) degrades to a raw entry and the loop
continues; a raised `ParseFromString` — of the action envelope or of a
registered action's payload — propagates to the `except`, aborting the loop:
the second component reports that abort, the first keeps the actions decoded
before it. -/
def parse_actions {M : Type} (wrapper_pb : List Byte → Option (String × List Byte))
    (msg_pb : String → Option (List Byte → Option M)) :
    List (List Byte) → List (String × Sum M (List Byte)) × Bool
  | [] => ([], false)
  | a :: rest =>
    if a.isEmpty then parse_actions wrapper_pb msg_pb rest
    else
      match wrapper_pb a with
      | none => ([], true)
      | some (nm, adata) =>
        match msg_pb (last_segment nm) with
        | none =>
          let r := parse_actions wrapper_pb msg_pb rest
          ((last_segment nm, Sum.inr adata) :: r.1, r.2)
        | some f =>
          match f adata with
          | none => ([], true)
          | some m =>
            let r := parse_actions wrapper_pb msg_pb rest
            ((last_segment nm, Sum.inl m) :: r.1, r.2)

/-- `parse_game_record` (paipu_dl.py): head sub-fields degrade individually;
missing data yields the `No game data` marker; a failure anywhere inside the
`try` (outer envelope, container, or any action parse) sets `parse_error` and
retains the raw payload as fallback, keeping whatever was decoded before. -/
def parse_game_record {A P M : Type} (acc_pb : List Byte → Option A)
    (pl_pb : List Byte → Option P)
    (wrapper_pb : List Byte → Option (String × List Byte))
    (detail_pb : List Byte → Option (Nat × List (List Byte)))
    (msg_pb : String → Option (List Byte → Option M))
    (record : GameRecordIn) : ParsedRecord A P M :=
  let ph := record.head.map (parse_head acc_pb pl_pb)
  let uu := record.head.bind (fun h => h.uuid)
  match record.data with
  | none => ⟨ph, uu, true, none, [], false, none⟩
  | some d =>
    match wrapper_pb d with
    | none => ⟨ph, uu, false, none, [], true, some d⟩
    | some (_, inner) =>
      match detail_pb inner with
      | none => ⟨ph, uu, false, none, [], true, some d⟩
      | some (ver, acts) =>
        let r := parse_actions wrapper_pb msg_pb acts
        ⟨ph, uu, false, some ver, r.1, r.2, if r.2 then some d else none⟩

/-! ## Concrete parser instances for the record-decode policy -/

/-- Modelled from the spec: a stand-in for the external `pb.Wrapper` envelope
parser (proto/liqi_pb2, outside src/) that always succeeds with envelope name
`w`. -/
def c5wrap : List Byte → Option (String × List Byte) := fun b => some ("w", b)

/-- Modelled from the spec: a stand-in for the external `pb.GameDetailRecords`
container parser, yielding version 1 and two actions `[7]` and `[8]`. -/
def c5detail : List Byte → Option (Nat × List (List Byte)) := fun _ => some (1, [[7], [8]])

/-- Modelled from the spec: a decoder registry (`getattr(pb, type_name)`)
with one decoder for type `w` that fails exactly on payload `[7]`. -/
def c5msg : String → Option (List Byte → Option Unit) :=
  fun ty => if ty = "w" then some (fun b => if b = [7] then none else some ()) else none

/-- Modelled from the spec: a decoder registry with no registered decoders. -/
def c5msgNone : String → Option (List Byte → Option Unit) := fun _ => none

/-- Modelled from the spec: a header sub-field parser that always fails. -/
def c5acc : List Byte → Option Unit := fun _ => none

/-! ## Concrete sample registries used by the testable properties -/

/-- A registry with one type `T` having one `uint32` field `a` with id 1. -/
def sampleT1 : TypeRegistry := [("T", ⟨[("a", ⟨1, "uint32", false⟩)]⟩)]

/-- The schema of the spec's message round-trip property:
`Foo{bar:{id:1,type:"string"}}`. -/
def fooTypes : TypeRegistry := [("Foo", ⟨[("bar", ⟨1, "string", false⟩)]⟩)]

/-- Types for the request-framing samples: an empty request message. -/
def rpcTypes : TypeRegistry := [("lq.Req", ⟨[]⟩)]

/-- Services for the request-framing samples: `lq.Lobby.m : lq.Req -> lq.Res`. -/
def rpcServices : ServiceRegistry := [("lq.Lobby", ⟨[("m", ⟨"lq.Req", "lq.Res"⟩)]⟩)]

/-! ## `MajsoulClient.connect` (ordered failover)

The network effects are abstracted per candidate host: what the maintenance
probe reported (or that it raised, which the code ignores via
`except Exception: pass`), and whether the secure-socket upgrade succeeded
(`Sum.inr session`) or raised (`Sum.inl error`). -/

/-- Outcome of the optional maintenance probe for one candidate. -/
inductive ProbeResult where
  | failed : ProbeResult
  | maintenance : ProbeResult
  | ok : ProbeResult
deriving DecidableEq

/-- One candidate gateway host: probe outcome and connection outcome. -/
structure Candidate (S E : Type) where
  probe : ProbeResult
  conn : Sum E S

/-- Result of `MajsoulClient.connect`: a session, the empty-candidate-list
error, or the final failure carrying the last underlying error (`none` when
no candidate was actually attempted, e.g. all under maintenance). -/
inductive ConnectOutcome (S E : Type) where
  | connected : S → ConnectOutcome S E
  | noServers : ConnectOutcome S E
  | failed : Option E → ConnectOutcome S E

/-- The `for server in servers` loop of `connect` (paipu_dl.py): a candidate
reported under maintenance is skipped without touching `last_error`; a probe
failure is ignored; the first successful upgrade returns; a failed upgrade
records the error and continues. -/
def connect_loop {S E : Type} : List (Candidate S E) → Option E → ConnectOutcome S E
  | [], last => .failed last
  | c :: rest, last =>
    match c.probe with
    | .maintenance => connect_loop rest last
    | _ =>
      match c.conn with
      | .inr s => .connected s
      | .inl e => connect_loop rest (some e)

/-- `MajsoulClient.connect`: raise `No servers available` on an empty
candidate list, otherwise run the failover loop with `last_error = None`. -/
def connect {S E : Type} (servers : List (Candidate S E)) : ConnectOutcome S E :=
  if servers.isEmpty then .noServers else connect_loop servers none

/-! ## `stats_batch.calculate_rates`

The Python function divides floats; the claim is about the guards that keep
every divisor nonzero, so the arithmetic is embedded over `ℚ` (exact division
by the same nonzero divisors) — the guard structure is identical. -/

/-- The integer counters of one aggregated player-stats record. -/
structure PlayerStats where
  round_count : Nat
  riichi_count : Nat
  furo_round_count : Nat
  win_count : Nat
  deal_in_count : Nat
  win_points : Nat
  deal_in_points : Nat

/-- The computed rates (the Python result also carries the input counters
through `{**stats, ...}`; those pass-through keys are omitted here). -/
structure PlayerRates where
  riichi_rate : ℚ
  furo_rate : ℚ
  win_rate : ℚ
  deal_in_rate : ℚ
  avg_win_points : ℚ
  avg_deal_in_points : ℚ

/-- The per-round divisor: `round_count`, replaced by 1 when it is 0
(`if round_count == 0: round_count = 1  # Avoid division by zero`). -/
def round_divisor (s : PlayerStats) : ℚ :=
  if s.round_count = 0 then 1 else (s.round_count : ℚ)

/-- `calculate_rates` (stats_batch.py). -/
def calculate_rates (s : PlayerStats) : PlayerRates :=
  let rc := round_divisor s
  ⟨(s.riichi_count : ℚ) / rc * 100,
   (s.furo_round_count : ℚ) / rc * 100,
   (s.win_count : ℚ) / rc * 100,
   (s.deal_in_count : ℚ) / rc * 100,
   if 0 < s.win_count then (s.win_points : ℚ) / (s.win_count : ℚ) else 0,
   if 0 < s.deal_in_count then (s.deal_in_points : ℚ) / (s.deal_in_count : ℚ) else 0⟩

end Majsoul

namespace Majsoul

/-! # Theorems -/

theorem decode_record_aux_length (len : Nat) :
    ∀ (i : Nat) (l : List Byte), (decode_record_aux len i l).length = l.length := by
  intro i l
  induction l generalizing i with
  | nil => rfl
  | cons b rest ih => simp [decode_record_aux, ih]

theorem decode_record_aux_involutive (len : Nat) :
    ∀ (i : Nat) (l : List Byte),
      decode_record_aux len i (decode_record_aux len i l) = l := by
  intro i l
  induction l generalizing i with
  | nil => rfl
  | cons b rest ih =>
    simp only [decode_record_aux, ih]
    rw [Nat.xor_assoc, Nat.xor_self, Nat.xor_zero]

/-- Claim C2: varint round-trip. For every
`v ∈ {0, 1, 127, 128, 16383, 16384, 2^31 - 1, 2^32 - 1}`, decoding the bytes
produced by `_encode_varint v` from position 0 yields exactly `v`, with the
final position equal to the encoded length. -/
theorem varint_roundtrip_cases :
    decode_varint (encode_varint 0) 0 = some (0, (encode_varint 0).length)
    ∧ decode_varint (encode_varint 1) 0 = some (1, (encode_varint 1).length)
    ∧ decode_varint (encode_varint 127) 0 = some (127, (encode_varint 127).length)
    ∧ decode_varint (encode_varint 128) 0 = some (128, (encode_varint 128).length)
    ∧ decode_varint (encode_varint 16383) 0 = some (16383, (encode_varint 16383).length)
    ∧ decode_varint (encode_varint 16384) 0 = some (16384, (encode_varint 16384).length)
    ∧ decode_varint (encode_varint 2147483647) 0
        = some (2147483647, (encode_varint 2147483647).length)
    ∧ decode_varint (encode_varint 4294967295) 0
        = some (4294967295, (encode_varint 4294967295).length) :=
  ⟨rfl, rfl, rfl, rfl, rfl, rfl, rfl, rfl⟩

/-- Claim C3: XOR involution. Applying `decode_record_data` twice to any byte
buffer restores the original buffer exactly; both applications use the same
total length because the transform preserves the buffer's length. -/
theorem decode_record_data_involutive (data : List Byte) :
    decode_record_data (decode_record_data data) = data := by
  unfold decode_record_data
  rw [decode_record_aux_length]
  exact decode_record_aux_involutive data.length 0 data

/-- Claim C1: decoding skips records whose field number is not defined for the
type being decoded, without raising and without affecting recognized fields.
An unknown varint-typed record skips exactly one varint and an unknown
length-delimited record skips its `length` bytes — in both cases the loop
continues at the skipped position with the accumulated fields untouched — and
a buffer containing one recognized field followed by (or preceded by) bytes
for an unregistered field number decodes the recognized field correctly and
does not raise. -/
theorem decode_skips_unknown_fields :
    (∀ (recur : String → List Byte → Option PDict) (types : TypeRegistry)
        (fields : List (String × FieldDef)) (data : List Byte)
        (fuel pos : Nat) (acc : PDict) (tag pos1 v pos2 : Nat),
      pos < data.length →
      decode_varint data pos = some (tag, pos1) →
      field_by_id fields (tag >>> 3) = none →
      tag &&& 7 = 0 →
      decode_varint data pos1 = some (v, pos2) →
      dec_loop recur types fields data (fuel + 1) pos acc
        = dec_loop recur types fields data fuel pos2 acc)
    ∧ (∀ (recur : String → List Byte → Option PDict) (types : TypeRegistry)
        (fields : List (String × FieldDef)) (data : List Byte)
        (fuel pos : Nat) (acc : PDict) (tag pos1 len pos2 : Nat),
      pos < data.length →
      decode_varint data pos = some (tag, pos1) →
      field_by_id fields (tag >>> 3) = none →
      tag &&& 7 = 2 →
      decode_varint data pos1 = some (len, pos2) →
      dec_loop recur types fields data (fuel + 1) pos acc
        = dec_loop recur types fields data fuel (pos2 + len) acc)
    ∧ decode_message sampleT1 "T" [0x08, 0x05, 0x10, 0x07] = some [("a", PValue.vint 5)]
    ∧ decode_message sampleT1 "T" [0x08, 0x05, 0x1a, 0x02, 0xff, 0xfe]
        = some [("a", PValue.vint 5)]
    ∧ decode_message sampleT1 "T" [0x10, 0x07, 0x08, 0x05] = some [("a", PValue.vint 5)] := by
  refine ⟨?_, ?_, rfl, rfl, rfl⟩
  · intro recur types fields data fuel pos acc tag pos1 v pos2 hpos hdv hfb hwt hdv2
    simp only [dec_loop, if_pos hpos, hdv, hfb, hwt, hdv2]
    simp
  · intro recur types fields data fuel pos acc tag pos1 len pos2 hpos hdv hfb hwt hdv2
    simp only [dec_loop, if_pos hpos, hdv, hfb, hwt, hdv2]
    simp

/-- Witness for C1 at a concrete input: an unknown varint-typed record (tag
`0x10`, value `0x07`) at position 2 of the sample buffer is skipped in one
loop step. -/
theorem decode_skips_unknown_fields_witness :
    dec_loop (fun n d => dec_msg 0 sampleT1 n d) sampleT1
        [("a", ⟨1, "uint32", false⟩)] [0x08, 0x05, 0x10, 0x07] 3 2 [("a", PValue.vint 5)]
      = dec_loop (fun n d => dec_msg 0 sampleT1 n d) sampleT1
        [("a", ⟨1, "uint32", false⟩)] [0x08, 0x05, 0x10, 0x07] 2 4 [("a", PValue.vint 5)] :=
  decode_skips_unknown_fields.1 (fun n d => dec_msg 0 sampleT1 n d) sampleT1
    [("a", ⟨1, "uint32", false⟩)] [0x08, 0x05, 0x10, 0x07] 2 2 [("a", PValue.vint 5)]
    16 3 7 4 (by decide) rfl rfl rfl rfl

/-- Claim C6: unknown-type tolerance. Decoding any byte buffer against a type
name that is registered neither literally nor with the `lq.` namespace prefix
returns the `_raw` marker carrying the raw bytes instead of raising. -/
theorem decode_unknown_type_marker (types : TypeRegistry) (name : String)
    (data : List Byte) (h : lookup_type types name = none) :
    decode_message types name data = some [("_raw", PValue.vbytes data)] := by
  unfold decode_message
  simp only [dec_msg, h]

/-- Witness for C6: decoding against an empty registry yields the raw marker. -/
theorem decode_unknown_type_marker_witness :
    decode_message [] "NoSuchType" [1, 2, 3] = some [("_raw", PValue.vbytes [1, 2, 3])] :=
  decode_unknown_type_marker [] "NoSuchType" [1, 2, 3] rfl

/-- Claim C8: message encoding example. For the schema
`Foo{bar:{id:1,type:"string"}}`, encoding `{bar: "hi"}` yields exactly the
four bytes `0x0a 0x02 0x68 0x69`. -/
theorem encode_foo_bar_hi :
    encode_message fooTypes "Foo" [("bar", PValue.vstr (str_bytes "hi"))]
      = some [0x0a, 0x02, 0x68, 0x69] := rfl

/-- Claim C4 counterexample: the sequence counter does NOT wrap at 16 bits.
With 65535 prior requests (`msg_index = 65535`), encoding the next request
does not succeed: `struct.pack("<H", 65536)` raises `struct.error`, so
`encode_request` raises instead of emitting id `65536 mod 2^16 = 0`. -/
theorem encode_request_no_wrap :
    encode_request rpcTypes rpcServices ⟨65535, []⟩ ".lq.Lobby.m" [] = none := rfl

/-- Claim C4 (amended): within one session the sequence id is a monotonic
counter starting at 1 — three consecutive calls allocate ids 1, 2, 3, each
frame carrying the id as a little-endian 16-bit value after the kind byte 2 —
and for every state whose next id still fits in 16 bits (counter + 1 ≤ 65535)
encoding succeeds with that id; beyond 65535 the counter does not wrap:
`encode_request` raises (modelled `none`). -/
theorem encode_request_sequence_ids :
    (∀ (types : TypeRegistry) (services : ServiceRegistry) (st : CodecState)
        (mname : String) (payload : PDict) (sn mn : String) (svc : ServiceDef)
        (md : MethodDef) (body : List Byte),
      parse_method_name mname = some (sn, mn) →
      services.lookup sn = some svc →
      svc.methods.lookup mn = some md →
      encode_message types md.requestType payload = some body →
      st.msgIndex + 1 ≤ 65535 →
      encode_request types services st mname payload =
        some (⟨st.msgIndex + 1,
                assoc_insert st.pending (st.msgIndex + 1) (mname, md.responseType)⟩,
          2 :: [(st.msgIndex + 1) % 256, (st.msgIndex + 1) / 256]
            ++ encode_string 1 (str_bytes mname) ++ encode_string 2 body))
    ∧ ((encode_request rpcTypes rpcServices ⟨0, []⟩ ".lq.Lobby.m" []).map
        (fun r => (r.1.msgIndex, r.2.take 3)) = some (1, [2, 1, 0]))
    ∧ (((encode_request rpcTypes rpcServices ⟨0, []⟩ ".lq.Lobby.m" []).bind
        (fun r => encode_request rpcTypes rpcServices r.1 ".lq.Lobby.m" [])).map
        (fun r => (r.1.msgIndex, r.2.take 3)) = some (2, [2, 2, 0]))
    ∧ ((((encode_request rpcTypes rpcServices ⟨0, []⟩ ".lq.Lobby.m" []).bind
        (fun r => encode_request rpcTypes rpcServices r.1 ".lq.Lobby.m" [])).bind
        (fun r => encode_request rpcTypes rpcServices r.1 ".lq.Lobby.m" [])).map
        (fun r => (r.1.msgIndex, r.2.take 3)) = some (3, [2, 3, 0]))
    ∧ encode_request rpcTypes rpcServices ⟨65535, []⟩ ".lq.Lobby.m" [] = none := by
  refine ⟨?_, rfl, rfl, rfl, rfl⟩
  intro types services st mname payload sn mn svc md body h1 h2 h3 h4 h5
  simp only [encode_request, h1, h2, h3, h4, pack_uint16_le, if_pos h5, MsgType.code]

/-- Witness for the amended C4 at a concrete state: with 7 prior requests the
next request is accepted and carries id 8 as the little-endian 16-bit field of
its frame. -/
theorem encode_request_sequence_ids_witness :
    encode_request rpcTypes rpcServices ⟨7, []⟩ ".lq.Lobby.m" [] =
      some (⟨7 + 1, assoc_insert [] (7 + 1) (".lq.Lobby.m", "lq.Res")⟩,
        2 :: [(7 + 1) % 256, (7 + 1) / 256]
          ++ encode_string 1 (str_bytes ".lq.Lobby.m") ++ encode_string 2 []) :=
  encode_request_sequence_ids.1 rpcTypes rpcServices ⟨7, []⟩ ".lq.Lobby.m" []
    "lq.Lobby" "m" ⟨[("m", ⟨"lq.Req", "lq.Res"⟩)]⟩ ⟨"lq.Req", "lq.Res"⟩ []
    rfl rfl rfl rfl (by decide)

theorem connect_loop_first_success {S E : Type} :
    ∀ (pre : List (Candidate S E)) (c : Candidate S E) (post : List (Candidate S E))
      (last : Option E) (s : S),
      (∀ d ∈ pre, d.probe = ProbeResult.maintenance ∨ ∃ e, d.conn = Sum.inl e) →
      c.probe ≠ ProbeResult.maintenance → c.conn = Sum.inr s →
      connect_loop (pre ++ c :: post) last = ConnectOutcome.connected s := by
  intro pre
  induction pre with
  | nil =>
    intro c post last s _ hcp hcc
    cases hp : c.probe with
    | maintenance => exact absurd hp hcp
    | failed => simp [connect_loop, hp, hcc]
    | ok => simp [connect_loop, hp, hcc]
  | cons d rest ih =>
    intro c post last s hpre hcp hcc
    have hd := hpre d (List.mem_cons_self d rest)
    have hrest : ∀ x ∈ rest, x.probe = ProbeResult.maintenance ∨ ∃ e, x.conn = Sum.inl e :=
      fun x hx => hpre x (List.mem_cons_of_mem d hx)
    rcases hd with hm | ⟨e, he⟩
    · simpa [connect_loop, hm] using ih c post last s hrest hcp hcc
    · cases hp : d.probe with
      | maintenance => simpa [connect_loop, hp] using ih c post last s hrest hcp hcc
      | failed => simpa [connect_loop, hp, he] using ih c post (some e) s hrest hcp hcc
      | ok => simpa [connect_loop, hp, he] using ih c post (some e) s hrest hcp hcc

theorem connect_loop_all_fail {S E : Type} :
    ∀ (cands : List (Candidate S E)) (last : Option E) (dl : Candidate S E) (el : E),
      (∀ d ∈ cands, d.probe ≠ ProbeResult.maintenance ∧ ∃ e, d.conn = Sum.inl e) →
      cands.getLast? = some dl → dl.conn = Sum.inl el →
      connect_loop cands last = ConnectOutcome.failed (some el) := by
  intro cands
  induction cands with
  | nil => intro last dl el _ h; simp at h
  | cons c rest ih =>
    intro last dl el hall hlast hdl
    have hc := hall c (List.mem_cons_self c rest)
    have hrest : ∀ d ∈ rest, d.probe ≠ ProbeResult.maintenance ∧ ∃ e, d.conn = Sum.inl e :=
      fun d hd => hall d (List.mem_cons_of_mem c hd)
    rcases hc with ⟨hcp, e, he⟩
    cases rest with
    | nil =>
      have hdc : c = dl := by simpa using hlast
      subst hdc
      have hee : e = el := by rw [he] at hdl; exact Sum.inl.inj hdl
      subst hee
      cases hp : c.probe with
      | maintenance => exact absurd hp hcp
      | failed => simp [connect_loop, hp, he]
      | ok => simp [connect_loop, hp, he]
    | cons c2 rest2 =>
      have hlast2 : (c2 :: rest2).getLast? = some dl := by
        simpa [List.getLast?_cons_cons] using hlast
      cases hp : c.probe with
      | maintenance => exact absurd hp hcp
      | failed => simp only [connect_loop, hp, he]; exact ih (some e) dl el hrest hlast2 hdl
      | ok => simp only [connect_loop, hp, he]; exact ih (some e) dl el hrest hlast2 hdl

/-- Claim C7: ordered failover. A candidate whose maintenance probe failed is
treated exactly like one whose probe succeeded without reporting maintenance
(the failure is ignored); `connect` returns at the first candidate whose
secure-socket upgrade succeeds — in particular with candidates
`[A (connect fails), B (connect succeeds)]` it returns the session bound to B
without raising, A's failure being recorded for diagnostics only — and when
every candidate's upgrade fails, it fails carrying the last underlying
error. -/
theorem connect_ordered_failover :
    (∀ (S E : Type) (eA : E) (sB : S),
      connect [⟨ProbeResult.ok, Sum.inl eA⟩, ⟨ProbeResult.ok, Sum.inr sB⟩]
        = ConnectOutcome.connected sB)
    ∧ (∀ (S E : Type) (conn : Sum E S) (rest : List (Candidate S E)) (last : Option E),
      connect_loop (⟨ProbeResult.failed, conn⟩ :: rest) last
        = connect_loop (⟨ProbeResult.ok, conn⟩ :: rest) last)
    ∧ (∀ (S E : Type) (pre post : List (Candidate S E)) (c : Candidate S E) (s : S),
      (∀ d ∈ pre, d.probe = ProbeResult.maintenance ∨ ∃ e, d.conn = Sum.inl e) →
      c.probe ≠ ProbeResult.maintenance → c.conn = Sum.inr s →
      connect (pre ++ c :: post) = ConnectOutcome.connected s)
    ∧ (∀ (S E : Type) (cands : List (Candidate S E)) (dl : Candidate S E) (el : E),
      (∀ d ∈ cands, d.probe ≠ ProbeResult.maintenance ∧ ∃ e, d.conn = Sum.inl e) →
      cands.getLast? = some dl → dl.conn = Sum.inl el →
      connect cands = ConnectOutcome.failed (some el)) := by
  refine ⟨?_, ?_, ?_, ?_⟩
  · intro S E eA sB; rfl
  · intro S E conn rest last
    cases conn with
    | inl e => simp [connect_loop]
    | inr s => simp [connect_loop]
  · intro S E pre post c s hpre hcp hcc
    rw [connect, if_neg (by simp)]
    exact connect_loop_first_success pre c post none s hpre hcp hcc
  · intro S E cands dl el hall hlast hdl
    have hne : cands ≠ [] := by
      intro h; subst h; simp at hlast
    rw [connect, if_neg (by simpa using hne)]
    exact connect_loop_all_fail cands none dl el hall hlast hdl

/-- Witness for C7 at concrete candidates: both candidates fail to upgrade,
so `connect` fails carrying the last error (4). -/
theorem connect_ordered_failover_witness :
    connect [(⟨ProbeResult.ok, Sum.inl 3⟩ : Candidate Nat Nat),
             ⟨ProbeResult.failed, Sum.inl 4⟩]
      = ConnectOutcome.failed (some 4) := by
  refine connect_ordered_failover.2.2.2 Nat Nat
    [⟨ProbeResult.ok, Sum.inl 3⟩, ⟨ProbeResult.failed, Sum.inl 4⟩]
    ⟨ProbeResult.failed, Sum.inl 4⟩ 4 ?_ rfl rfl
  intro d hd
  simp only [List.mem_cons, List.not_mem_nil, or_false] at hd
  rcases hd with rfl | rfl
  · exact ⟨by decide, ⟨3, rfl⟩⟩
  · exact ⟨by decide, ⟨4, rfl⟩⟩

/-- Claim C9: `calculate_rates` never divides by zero and is total. The
per-round divisor is nonzero for every stats record (it is 1 exactly when
`round_count = 0`, else `round_count`), so each per-round rate times the
divisor recovers `counter * 100`; `avg_win_points` is 0 when `win_count` is 0
and otherwise satisfies `avg * win_count = win_points`, and likewise for
`avg_deal_in_points`; hence every returned rate is a well-defined number. -/
theorem calculate_rates_total (s : PlayerStats) :
    round_divisor s ≠ 0
    ∧ (s.round_count = 0 → round_divisor s = 1)
    ∧ (s.round_count ≠ 0 → round_divisor s = (s.round_count : ℚ))
    ∧ (calculate_rates s).riichi_rate * round_divisor s = (s.riichi_count : ℚ) * 100
    ∧ (calculate_rates s).furo_rate * round_divisor s = (s.furo_round_count : ℚ) * 100
    ∧ (calculate_rates s).win_rate * round_divisor s = (s.win_count : ℚ) * 100
    ∧ (calculate_rates s).deal_in_rate * round_divisor s = (s.deal_in_count : ℚ) * 100
    ∧ (s.win_count = 0 → (calculate_rates s).avg_win_points = 0)
    ∧ (s.win_count ≠ 0 →
        (calculate_rates s).avg_win_points * (s.win_count : ℚ) = (s.win_points : ℚ))
    ∧ (s.deal_in_count = 0 → (calculate_rates s).avg_deal_in_points = 0)
    ∧ (s.deal_in_count ≠ 0 →
        (calculate_rates s).avg_deal_in_points * (s.deal_in_count : ℚ)
          = (s.deal_in_points : ℚ)) := by
  have hrd : round_divisor s ≠ 0 := by
    unfold round_divisor
    split
    · exact one_ne_zero
    · exact Nat.cast_ne_zero.mpr (by assumption)
  refine ⟨hrd, ?_, ?_, ?_, ?_, ?_, ?_, ?_, ?_, ?_, ?_⟩
  · intro h; simp [round_divisor, h]
  · intro h; simp [round_divisor, h]
  · simp only [calculate_rates]
    rw [mul_right_comm, div_mul_cancel₀ _ hrd]
  · simp only [calculate_rates]
    rw [mul_right_comm, div_mul_cancel₀ _ hrd]
  · simp only [calculate_rates]
    rw [mul_right_comm, div_mul_cancel₀ _ hrd]
  · simp only [calculate_rates]
    rw [mul_right_comm, div_mul_cancel₀ _ hrd]
  · intro h; simp [calculate_rates, h]
  · intro h
    have hc : (s.win_count : ℚ) ≠ 0 := Nat.cast_ne_zero.mpr h
    simp only [calculate_rates, if_pos (Nat.pos_of_ne_zero h)]
    exact div_mul_cancel₀ _ hc
  · intro h; simp [calculate_rates, h]
  · intro h
    have hc : (s.deal_in_count : ℚ) ≠ 0 := Nat.cast_ne_zero.mpr h
    simp only [calculate_rates, if_pos (Nat.pos_of_ne_zero h)]
    exact div_mul_cancel₀ _ hc

/-- Witness for C9 at the all-zero stats record: the divisor is nonzero (it
degrades to 1) and both averages are 0. -/
theorem calculate_rates_total_witness :
    round_divisor ⟨0, 0, 0, 0, 0, 0, 0⟩ ≠ 0
    ∧ ((⟨0, 0, 0, 0, 0, 0, 0⟩ : PlayerStats).round_count = 0 →
        round_divisor ⟨0, 0, 0, 0, 0, 0, 0⟩ = 1)
    ∧ ((⟨0, 0, 0, 0, 0, 0, 0⟩ : PlayerStats).round_count ≠ 0 →
        round_divisor ⟨0, 0, 0, 0, 0, 0, 0⟩
          = ((⟨0, 0, 0, 0, 0, 0, 0⟩ : PlayerStats).round_count : ℚ))
    ∧ (calculate_rates ⟨0, 0, 0, 0, 0, 0, 0⟩).riichi_rate * round_divisor ⟨0, 0, 0, 0, 0, 0, 0⟩
        = ((⟨0, 0, 0, 0, 0, 0, 0⟩ : PlayerStats).riichi_count : ℚ) * 100
    ∧ (calculate_rates ⟨0, 0, 0, 0, 0, 0, 0⟩).furo_rate * round_divisor ⟨0, 0, 0, 0, 0, 0, 0⟩
        = ((⟨0, 0, 0, 0, 0, 0, 0⟩ : PlayerStats).furo_round_count : ℚ) * 100
    ∧ (calculate_rates ⟨0, 0, 0, 0, 0, 0, 0⟩).win_rate * round_divisor ⟨0, 0, 0, 0, 0, 0, 0⟩
        = ((⟨0, 0, 0, 0, 0, 0, 0⟩ : PlayerStats).win_count : ℚ) * 100
    ∧ (calculate_rates ⟨0, 0, 0, 0, 0, 0, 0⟩).deal_in_rate * round_divisor ⟨0, 0, 0, 0, 0, 0, 0⟩
        = ((⟨0, 0, 0, 0, 0, 0, 0⟩ : PlayerStats).deal_in_count : ℚ) * 100
    ∧ ((⟨0, 0, 0, 0, 0, 0, 0⟩ : PlayerStats).win_count = 0 →
        (calculate_rates ⟨0, 0, 0, 0, 0, 0, 0⟩).avg_win_points = 0)
    ∧ ((⟨0, 0, 0, 0, 0, 0, 0⟩ : PlayerStats).win_count ≠ 0 →
        (calculate_rates ⟨0, 0, 0, 0, 0, 0, 0⟩).avg_win_points
            * ((⟨0, 0, 0, 0, 0, 0, 0⟩ : PlayerStats).win_count : ℚ)
          = ((⟨0, 0, 0, 0, 0, 0, 0⟩ : PlayerStats).win_points : ℚ))
    ∧ ((⟨0, 0, 0, 0, 0, 0, 0⟩ : PlayerStats).deal_in_count = 0 →
        (calculate_rates ⟨0, 0, 0, 0, 0, 0, 0⟩).avg_deal_in_points = 0)
    ∧ ((⟨0, 0, 0, 0, 0, 0, 0⟩ : PlayerStats).deal_in_count ≠ 0 →
        (calculate_rates ⟨0, 0, 0, 0, 0, 0, 0⟩).avg_deal_in_points
            * ((⟨0, 0, 0, 0, 0, 0, 0⟩ : PlayerStats).deal_in_count : ℚ)
          = ((⟨0, 0, 0, 0, 0, 0, 0⟩ : PlayerStats).deal_in_points : ℚ)) :=
  calculate_rates_total ⟨0, 0, 0, 0, 0, 0, 0⟩

theorem best_match_aux_spec (used : List Nat) (target : Int) :
    ∀ (l : List (Nat × Int)) (best : Option (Nat × Nat)) (i bd : Nat),
      best_match_aux used target l best = some (i, bd) →
      best = some (i, bd)
      ∨ (i ∉ used ∧ ∃ cs, (i, cs) ∈ l ∧ bd = (target - cs).natAbs) := by
  intro l
  induction l with
  | nil => intro best i bd h; exact Or.inl (by simpa [best_match_aux] using h)
  | cons p rest ih =>
    intro best i bd h
    obtain ⟨j, score⟩ := p
    by_cases hj : j ∈ used
    · rw [best_match_aux, if_pos hj] at h
      rcases ih best i bd h with hb | ⟨hni, cs, hcs, hbd⟩
      · exact Or.inl hb
      · exact Or.inr ⟨hni, cs, List.mem_cons_of_mem _ hcs, hbd⟩
    · cases best with
      | none =>
        simp only [best_match_aux, if_neg hj] at h
        rcases ih (some (j, (target - score).natAbs)) i bd h with hb | ⟨hni, cs, hcs, hbd⟩
        · obtain ⟨hji, hdb⟩ := Prod.mk.inj (Option.some.inj hb)
          subst hji
          exact Or.inr ⟨hj, score, List.mem_cons_self _ _, hdb.symm⟩
        · exact Or.inr ⟨hni, cs, List.mem_cons_of_mem _ hcs, hbd⟩
      | some q =>
        obtain ⟨k, bd0⟩ := q
        simp only [best_match_aux, if_neg hj] at h
        by_cases hlt : (target - score).natAbs < bd0
        · rw [if_pos hlt] at h
          rcases ih (some (j, (target - score).natAbs)) i bd h with hb | ⟨hni, cs, hcs, hbd⟩
          · obtain ⟨hji, hdb⟩ := Prod.mk.inj (Option.some.inj hb)
            subst hji
            exact Or.inr ⟨hj, score, List.mem_cons_self _ _, hdb.symm⟩
          · exact Or.inr ⟨hni, cs, List.mem_cons_of_mem _ hcs, hbd⟩
        · rw [if_neg hlt] at h
          rcases ih (some (k, bd0)) i bd h with hb | ⟨hni, cs, hcs, hbd⟩
          · exact Or.inl hb
          · exact Or.inr ⟨hni, cs, List.mem_cons_of_mem _ hcs, hbd⟩

theorem match_loop_mem (csv : List (Nat × Int)) :
    ∀ (seats : List (Nat × Int)) (used : List Nat) (acc : List (Nat × Nat))
      (p : Nat × Nat), p ∈ match_loop csv seats used acc →
      p ∈ acc
      ∨ (p.2 ∉ used
          ∧ ∃ js cs, (p.1, js) ∈ seats ∧ (p.2, cs) ∈ csv ∧ (js - cs).natAbs < 100) := by
  intro seats
  induction seats with
  | nil => intro used acc p h; exact Or.inl h
  | cons q rest ih =>
    intro used acc p h
    obtain ⟨seat, js⟩ := q
    cases hbm : best_match_aux used js csv none with
    | none =>
      simp only [match_loop, hbm] at h
      rcases ih used acc p h with hp | ⟨hnu, js2, cs, hjs, hcs, hlt⟩
      · exact Or.inl hp
      · exact Or.inr ⟨hnu, js2, cs, List.mem_cons_of_mem _ hjs, hcs, hlt⟩
    | some r =>
      obtain ⟨i, bd⟩ := r
      simp only [match_loop, hbm] at h
      rcases best_match_aux_spec used js csv none i bd hbm with hb | ⟨hni, cs, hcs, hbd⟩
      · exact absurd hb (by simp)
      by_cases hlt : bd < 100
      · rw [if_pos hlt] at h
        rcases ih (used ++ [i]) (acc ++ [(seat, i)]) p h with hp | ⟨hnu, js2, cs2, hjs, hcs2, h2⟩
        · rcases List.mem_append.mp hp with hp2 | hp3
          · exact Or.inl hp2
          · have hpe : p = (seat, i) := by simpa using hp3
            subst hpe
            exact Or.inr ⟨hni, js, cs, List.mem_cons_self _ _, hcs, hbd ▸ hlt⟩
        · refine Or.inr ⟨fun hc => hnu (List.mem_append.mpr (Or.inl hc)),
            js2, cs2, List.mem_cons_of_mem _ hjs, hcs2, h2⟩
      · rw [if_neg hlt] at h
        rcases ih used acc p h with hp | ⟨hnu, js2, cs2, hjs, hcs2, h2⟩
        · exact Or.inl hp
        · exact Or.inr ⟨hnu, js2, cs2, List.mem_cons_of_mem _ hjs, hcs2, h2⟩

theorem match_loop_nodup (csv : List (Nat × Int)) :
    ∀ (seats : List (Nat × Int)) (used : List Nat) (acc : List (Nat × Nat)),
      (acc.map Prod.snd).Nodup → (∀ i ∈ acc.map Prod.snd, i ∈ used) →
      ((match_loop csv seats used acc).map Prod.snd).Nodup := by
  intro seats
  induction seats with
  | nil => intro used acc hnd _; simpa [match_loop] using hnd
  | cons q rest ih =>
    intro used acc hnd hsub
    obtain ⟨seat, js⟩ := q
    cases hbm : best_match_aux used js csv none with
    | none => simp only [match_loop, hbm]; exact ih used acc hnd hsub
    | some r =>
      obtain ⟨i, bd⟩ := r
      simp only [match_loop, hbm]
      rcases best_match_aux_spec used js csv none i bd hbm with hb | ⟨hni, _, _, _⟩
      · exact absurd hb (by simp)
      by_cases hlt : bd < 100
      · rw [if_pos hlt]
        refine ih (used ++ [i]) (acc ++ [(seat, i)]) ?_ ?_
        · rw [List.map_append]
          rw [List.nodup_append]
          refine ⟨hnd, List.nodup_singleton i, ?_⟩
          intro a ha hai
          have : a = i := by simpa using hai
          subst this
          exact hni (hsub a ha)
        · intro j hj
          rw [List.map_append] at hj
          rcases List.mem_append.mp hj with hj1 | hj2
          · exact List.mem_append.mpr (Or.inl (hsub j hj1))
          · exact List.mem_append.mpr (Or.inr (by simpa using hj2))
      · rw [if_neg hlt]
        exact ih used acc hnd hsub

/-- Claim C10: `match_players_by_score` returns the empty mapping whenever
`final_scores` is missing or its length is not exactly 4; otherwise the
seat-to-player mapping uses each CSV player index for at most one seat
(injectivity enforced through the used-players set), and a seat is mapped
only when the absolute difference between its final score and the matched
player's CSV score is strictly below 100. -/
theorem match_players_by_score_spec :
    (∀ csv, match_players_by_score csv none = [])
    ∧ (∀ csv fs, fs.length ≠ 4 → match_players_by_score csv (some fs) = [])
    ∧ (∀ csv fs, ((match_players_by_score csv (some fs)).map Prod.snd).Nodup)
    ∧ (∀ csv fs seat i, (seat, i) ∈ match_players_by_score csv (some fs) →
        ∃ js cs, fs[seat]? = some js ∧ csv[i]? = some cs ∧ (js - cs).natAbs < 100) := by
  refine ⟨fun csv => rfl, ?_, ?_, ?_⟩
  · intro csv fs h
    rw [match_players_by_score, if_pos h]
  · intro csv fs
    rw [match_players_by_score]
    split
    · simp
    · exact match_loop_nodup csv.enum fs.enum [] [] List.nodup_nil (by simp)
  · intro csv fs seat i h
    rw [match_players_by_score] at h
    split at h
    · simp at h
    · rcases match_loop_mem csv.enum fs.enum [] [] (seat, i) h with hp | ⟨_, js, cs, hjs, hcs, hlt⟩
      · simp at hp
      · exact ⟨js, cs, List.mem_enum_iff_getElem?.mp hjs, List.mem_enum_iff_getElem?.mp hcs, hlt⟩

/-- Witness for C10 at concrete scores: seat 0 (final score 25000) is matched
to CSV player 0 (score 25000), and the matched pair's difference is below
100. -/
theorem match_players_by_score_spec_witness :
    ∃ js cs, (([25000, 5000, 1000, 2000] : List Int))[0]? = some js
      ∧ (([25000, 30000] : List Int))[0]? = some cs ∧ (js - cs).natAbs < 100 :=
  match_players_by_score_spec.2.2.2 [25000, 30000] [25000, 5000, 1000, 2000] 0 0 (by decide)

theorem parse_game_record_head_eq {A P M : Type} (acc_pb : List Byte → Option A)
    (pl_pb : List Byte → Option P)
    (wrapper_pb : List Byte → Option (String × List Byte))
    (detail_pb : List Byte → Option (Nat × List (List Byte)))
    (msg_pb : String → Option (List Byte → Option M)) (rec : GameRecordIn) :
    (parse_game_record acc_pb pl_pb wrapper_pb detail_pb msg_pb rec).head
      = rec.head.map (parse_head acc_pb pl_pb) := by
  rcases rec with ⟨hd, dat⟩
  cases dat with
  | none => rfl
  | some d =>
    cases hw : wrapper_pb d with
    | none => simp [parse_game_record, hw]
    | some q =>
      obtain ⟨nm, inner⟩ := q
      cases hdt : detail_pb inner with
      | none => simp [parse_game_record, hw, hdt]
      | some r => simp [parse_game_record, hw, hdt]

theorem parse_game_record_data_independent {A1 P1 A2 P2 M : Type}
    (acc1 : List Byte → Option A1) (pl1 : List Byte → Option P1)
    (acc2 : List Byte → Option A2) (pl2 : List Byte → Option P2)
    (wrapper_pb : List Byte → Option (String × List Byte))
    (detail_pb : List Byte → Option (Nat × List (List Byte)))
    (msg_pb : String → Option (List Byte → Option M)) (rec : GameRecordIn) :
    (parse_game_record acc1 pl1 wrapper_pb detail_pb msg_pb rec).actions
        = (parse_game_record acc2 pl2 wrapper_pb detail_pb msg_pb rec).actions
    ∧ (parse_game_record acc1 pl1 wrapper_pb detail_pb msg_pb rec).parseError
        = (parse_game_record acc2 pl2 wrapper_pb detail_pb msg_pb rec).parseError
    ∧ (parse_game_record acc1 pl1 wrapper_pb detail_pb msg_pb rec).version
        = (parse_game_record acc2 pl2 wrapper_pb detail_pb msg_pb rec).version
    ∧ (parse_game_record acc1 pl1 wrapper_pb detail_pb msg_pb rec).rawData
        = (parse_game_record acc2 pl2 wrapper_pb detail_pb msg_pb rec).rawData
    ∧ (parse_game_record acc1 pl1 wrapper_pb detail_pb msg_pb rec).noData
        = (parse_game_record acc2 pl2 wrapper_pb detail_pb msg_pb rec).noData := by
  rcases rec with ⟨hd, dat⟩
  cases dat with
  | none => exact ⟨rfl, rfl, rfl, rfl, rfl⟩
  | some d =>
    cases hw : wrapper_pb d with
    | none => simp [parse_game_record, hw]
    | some q =>
      obtain ⟨nm, inner⟩ := q
      cases hdt : detail_pb inner with
      | none => simp [parse_game_record, hw, hdt]
      | some r => simp [parse_game_record, hw, hdt]

/-- Claim C5 counterexample: a decode failure isolated to one action does NOT
degrade just that element. With an outer envelope and container that parse
fine, two actions `[7]` and `[8]`, and a registered decoder for the action
type that fails exactly on `[7]`: the whole remainder is aborted — the output
carries the `parse_error` marker and the raw payload, the failing action is
not retained as an opaque entry, and the intact second action is dropped —
even though the outer envelope itself parsed. -/
theorem parse_game_record_action_abort :
    parse_game_record c5acc c5acc c5wrap c5detail c5msg ⟨none, some [0]⟩
      = ⟨none, none, false, some 1, [], true, some [0]⟩ := rfl

/-- Claim C5 (amended): record-decode error policy. A decode failure of a
header sub-field (`accounts` or `result.players`) degrades that field to its
raw value, and the data section (actions, error marker, version, raw payload,
no-data marker) is produced independently of the header parsers; an action
whose envelope names an unregistered type degrades to a raw `(type, bytes)`
entry with the following actions still processed; an unparseable outer
envelope or container aborts with the `parse_error` marker and the raw
payload retained and no actions; and a parse failure of an action envelope or
of a registered action's payload likewise aborts the remainder — the record
keeps the error marker, the raw payload, and only the actions decoded before
the failure. -/
theorem parse_game_record_policy :
    (∀ (A P M : Type) (acc_pb : List Byte → Option A) (pl_pb : List Byte → Option P)
        (wrapper_pb : List Byte → Option (String × List Byte))
        (detail_pb : List Byte → Option (Nat × List (List Byte)))
        (msg_pb : String → Option (List Byte → Option M))
        (h : GRHead) (b : List Byte) (dat : Option (List Byte)),
      h.accounts = some b → acc_pb b = none →
      (parse_game_record acc_pb pl_pb wrapper_pb detail_pb msg_pb ⟨some h, dat⟩).head
          = some (parse_head acc_pb pl_pb h)
        ∧ (parse_head acc_pb pl_pb h).accounts = some (HeadField.raw b))
    ∧ (∀ (A P M : Type) (acc_pb : List Byte → Option A) (pl_pb : List Byte → Option P)
        (wrapper_pb : List Byte → Option (String × List Byte))
        (detail_pb : List Byte → Option (Nat × List (List Byte)))
        (msg_pb : String → Option (List Byte → Option M))
        (h : GRHead) (b : List Byte) (dat : Option (List Byte)),
      h.result_players = some b → pl_pb b = none →
      (parse_game_record acc_pb pl_pb wrapper_pb detail_pb msg_pb ⟨some h, dat⟩).head
          = some (parse_head acc_pb pl_pb h)
        ∧ (parse_head acc_pb pl_pb h).players = some (HeadField.raw b))
    ∧ (∀ (A1 P1 A2 P2 M : Type)
        (acc1 : List Byte → Option A1) (pl1 : List Byte → Option P1)
        (acc2 : List Byte → Option A2) (pl2 : List Byte → Option P2)
        (wrapper_pb : List Byte → Option (String × List Byte))
        (detail_pb : List Byte → Option (Nat × List (List Byte)))
        (msg_pb : String → Option (List Byte → Option M)) (rec : GameRecordIn),
      (parse_game_record acc1 pl1 wrapper_pb detail_pb msg_pb rec).actions
          = (parse_game_record acc2 pl2 wrapper_pb detail_pb msg_pb rec).actions
        ∧ (parse_game_record acc1 pl1 wrapper_pb detail_pb msg_pb rec).parseError
          = (parse_game_record acc2 pl2 wrapper_pb detail_pb msg_pb rec).parseError
        ∧ (parse_game_record acc1 pl1 wrapper_pb detail_pb msg_pb rec).version
          = (parse_game_record acc2 pl2 wrapper_pb detail_pb msg_pb rec).version
        ∧ (parse_game_record acc1 pl1 wrapper_pb detail_pb msg_pb rec).rawData
          = (parse_game_record acc2 pl2 wrapper_pb detail_pb msg_pb rec).rawData
        ∧ (parse_game_record acc1 pl1 wrapper_pb detail_pb msg_pb rec).noData
          = (parse_game_record acc2 pl2 wrapper_pb detail_pb msg_pb rec).noData)
    ∧ (∀ (M : Type) (wrapper_pb : List Byte → Option (String × List Byte))
        (msg_pb : String → Option (List Byte → Option M))
        (a : List Byte) (rest : List (List Byte)) (nm : String) (adata : List Byte),
      a.isEmpty = false → wrapper_pb a = some (nm, adata) →
      msg_pb (last_segment nm) = none →
      parse_actions wrapper_pb msg_pb (a :: rest)
        = ((last_segment nm, Sum.inr adata) :: (parse_actions wrapper_pb msg_pb rest).1,
            (parse_actions wrapper_pb msg_pb rest).2))
    ∧ (∀ (A P M : Type) (acc_pb : List Byte → Option A) (pl_pb : List Byte → Option P)
        (wrapper_pb : List Byte → Option (String × List Byte))
        (detail_pb : List Byte → Option (Nat × List (List Byte)))
        (msg_pb : String → Option (List Byte → Option M))
        (rec : GameRecordIn) (d : List Byte),
      rec.data = some d → wrapper_pb d = none →
      parse_game_record acc_pb pl_pb wrapper_pb detail_pb msg_pb rec
        = ⟨rec.head.map (parse_head acc_pb pl_pb), rec.head.bind (fun h => h.uuid),
            false, none, [], true, some d⟩)
    ∧ (∀ (A P M : Type) (acc_pb : List Byte → Option A) (pl_pb : List Byte → Option P)
        (wrapper_pb : List Byte → Option (String × List Byte))
        (detail_pb : List Byte → Option (Nat × List (List Byte)))
        (msg_pb : String → Option (List Byte → Option M))
        (rec : GameRecordIn) (d : List Byte) (nm : String) (inner : List Byte),
      rec.data = some d → wrapper_pb d = some (nm, inner) → detail_pb inner = none →
      parse_game_record acc_pb pl_pb wrapper_pb detail_pb msg_pb rec
        = ⟨rec.head.map (parse_head acc_pb pl_pb), rec.head.bind (fun h => h.uuid),
            false, none, [], true, some d⟩)
    ∧ (∀ (M : Type) (wrapper_pb : List Byte → Option (String × List Byte))
        (msg_pb : String → Option (List Byte → Option M))
        (a : List Byte) (rest : List (List Byte)),
      a.isEmpty = false → wrapper_pb a = none →
      parse_actions wrapper_pb msg_pb (a :: rest) = ([], true))
    ∧ (∀ (M : Type) (wrapper_pb : List Byte → Option (String × List Byte))
        (msg_pb : String → Option (List Byte → Option M))
        (a : List Byte) (rest : List (List Byte)) (nm : String) (adata : List Byte)
        (f : List Byte → Option M),
      a.isEmpty = false → wrapper_pb a = some (nm, adata) →
      msg_pb (last_segment nm) = some f → f adata = none →
      parse_actions wrapper_pb msg_pb (a :: rest) = ([], true))
    ∧ (∀ (A P M : Type) (acc_pb : List Byte → Option A) (pl_pb : List Byte → Option P)
        (wrapper_pb : List Byte → Option (String × List Byte))
        (detail_pb : List Byte → Option (Nat × List (List Byte)))
        (msg_pb : String → Option (List Byte → Option M))
        (rec : GameRecordIn) (d : List Byte) (nm : String) (inner : List Byte)
        (ver : Nat) (acts : List (List Byte)),
      rec.data = some d → wrapper_pb d = some (nm, inner) →
      detail_pb inner = some (ver, acts) →
      (parse_actions wrapper_pb msg_pb acts).2 = true →
      parse_game_record acc_pb pl_pb wrapper_pb detail_pb msg_pb rec
        = ⟨rec.head.map (parse_head acc_pb pl_pb), rec.head.bind (fun h => h.uuid),
            false, some ver, (parse_actions wrapper_pb msg_pb acts).1, true, some d⟩) := by
  refine ⟨?_, ?_, ?_, ?_, ?_, ?_, ?_, ?_, ?_⟩
  · intro A P M acc_pb pl_pb wrapper_pb detail_pb msg_pb h b dat hab hpb
    refine ⟨?_, ?_⟩
    · rw [parse_game_record_head_eq]
      rfl
    · simp [parse_head, hab, hpb]
  · intro A P M acc_pb pl_pb wrapper_pb detail_pb msg_pb h b dat hab hpb
    refine ⟨?_, ?_⟩
    · rw [parse_game_record_head_eq]
      rfl
    · simp [parse_head, hab, hpb]
  · intro A1 P1 A2 P2 M acc1 pl1 acc2 pl2 wrapper_pb detail_pb msg_pb rec
    exact parse_game_record_data_independent acc1 pl1 acc2 pl2 wrapper_pb detail_pb msg_pb rec
  · intro M wrapper_pb msg_pb a rest nm adata ha hw hm
    simp only [parse_actions, ha, hw, hm, Bool.false_eq_true, if_false]
  · intro A P M acc_pb pl_pb wrapper_pb detail_pb msg_pb rec d hd hw
    rcases rec with ⟨hh, dat⟩
    simp only at hd
    subst hd
    simp [parse_game_record, hw]
  · intro A P M acc_pb pl_pb wrapper_pb detail_pb msg_pb rec d nm inner hd hw hdt
    rcases rec with ⟨hh, dat⟩
    simp only at hd
    subst hd
    simp [parse_game_record, hw, hdt]
  · intro M wrapper_pb msg_pb a rest ha hw
    simp only [parse_actions, ha, hw, Bool.false_eq_true, if_false]
  · intro M wrapper_pb msg_pb a rest nm adata f ha hw hm hf
    simp only [parse_actions, ha, hw, hm, hf, Bool.false_eq_true, if_false]
  · intro A P M acc_pb pl_pb wrapper_pb detail_pb msg_pb rec d nm inner ver acts hd hw hdt hab
    rcases rec with ⟨hh, dat⟩
    simp only at hd
    subst hd
    simp [parse_game_record, hw, hdt, hab]

/-- Witness for the amended C5 at concrete parsers: an action of the
unregistered type `w` degrades to a raw entry and the (empty) remainder is
still processed normally. -/
theorem parse_game_record_policy_witness :
    parse_actions c5wrap c5msgNone [[2]]
      = ((last_segment "w", Sum.inr [2]) :: (parse_actions c5wrap c5msgNone []).1,
          (parse_actions c5wrap c5msgNone []).2) :=
  parse_game_record_policy.2.2.2.1 Unit c5wrap c5msgNone [2] [] "w" [2] rfl rfl rfl

end Majsoul
